import Mathlib

/-!
Shallow embedding of the tmxu application core (src/tmux.rs and src/app.rs):
the session/window/pane hierarchy built by `parse_sessions`, and the modal
key-handling state machine of `App`.  External process calls (tmux
create/rename/kill, the bulk fetch) are represented as explicit data:
handlers receive an oracle for call results and report the calls they made.
-/

namespace Tmxu

/-- Pane record (struct TmuxPane in src/tmux.rs). -/
structure TmuxPane where
  index : Nat
  current_command : String
  current_path : String
  active : Bool
  deriving Repr, DecidableEq

/-- Window record (struct TmuxWindow in src/tmux.rs). -/
structure TmuxWindow where
  index : Nat
  name : String
  active : Bool
  panes : List TmuxPane
  deriving Repr, DecidableEq

/-- Session record (struct TmuxSession in src/tmux.rs). -/
structure TmuxSession where
  name : String
  id : String
  attached : Bool
  window_count : Nat
  created : Nat
  windows : List TmuxWindow
  deriving Repr, DecidableEq

/-- Splitting a character stream at a separator, keeping empty pieces:
the behaviour of Rust `str::split(sep)` on the characters of the string. -/
def splitOnChar (sep : Char) : List Char → List (List Char)
  | [] => [[]]
  | c :: cs =>
    let r := splitOnChar sep cs
    if c = sep then [] :: r
    else
      match r with
      | [] => [[c]]
      | p :: ps => (c :: p) :: ps

/-- Drop a single trailing carriage return, as Rust `str::lines` does for
lines terminated by a CRLF sequence. -/
def stripTrailingCR (l : List Char) : List Char :=
  match l.getLast? with
  | some c => if c = '\r' then l.dropLast else l
  | none => l

/-- Rust `str::lines`: split at newline characters, strip one carriage
return before each newline, and do not yield a final empty line for a
trailing newline. -/
def rustLines (cs : List Char) : List (List Char) :=
  let ps := splitOnChar '\n' cs
  let front := ps.dropLast.map stripTrailingCR
  match ps.getLast? with
  | some [] => front
  | some last => front ++ [last]
  | none => front

/-- Numeric value of a decimal digit character. -/
def digitVal (c : Char) : Nat := c.toNat - 48

/-- Rust `str::parse` for an unsigned integer type of bit width `width`:
an optional leading plus sign, then one or more decimal digits, and the
value must fit in the type; anything else is a parse error. -/
def rustParseUnsigned (width : Nat) (cs : List Char) : Option Nat :=
  let ds :=
    match cs with
    | '+' :: rest => rest
    | _ => cs
  match ds with
  | [] => none
  | _ =>
    if ds.all Char.isDigit then
      let v := ds.foldl (fun acc c => acc * 10 + digitVal c) 0
      if v < 2 ^ width then some v else none
    else none

/-- `s.parse().unwrap_or(0)` as used for the numeric fields of a line. -/
def parseOr0 (width : Nat) (cs : List Char) : Nat :=
  (rustParseUnsigned width cs).getD 0

/-- Rust `str::trim` restricted to the whitespace characters of interest. -/
def trimChars (cs : List Char) : List Char :=
  ((cs.dropWhile Char.isWhitespace).reverse.dropWhile Char.isWhitespace).reverse

/-- The data extracted from one well-formed (12-field) line. -/
structure LineData where
  session_name : String
  session_id : String
  session_attached : Bool
  session_windows : Nat
  session_created : Nat
  window_index : Nat
  window_name : String
  window_active : Bool
  pane : TmuxPane
  deriving Repr, DecidableEq

/-- A line is well formed when it has at least 12 pipe-delimited fields. -/
def wellFormedLine (line : List Char) : Bool :=
  12 ≤ (splitOnChar '|' line).length

/-- Field extraction for one line of `parse_sessions`: `none` exactly for a
malformed (fewer than 12 fields) line, which the loop skips. -/
def parseLine (line : List Char) : Option LineData :=
  let parts := splitOnChar '|' line
  if parts.length < 12 then none
  else some {
    session_name := ⟨parts.getD 0 []⟩
    session_id := ⟨parts.getD 1 []⟩
    session_attached := parts.getD 2 [] ≠ ['0']
    session_windows := parseOr0 32 (parts.getD 3 [])
    session_created := parseOr0 64 (parts.getD 4 [])
    window_index := parseOr0 32 (parts.getD 5 [])
    window_name := ⟨parts.getD 6 []⟩
    window_active := parts.getD 7 [] ≠ ['0']
    pane := {
      index := parseOr0 32 (parts.getD 8 [])
      current_command := ⟨parts.getD 9 []⟩
      current_path := ⟨parts.getD 10 []⟩
      active := trimChars (parts.getD 11 []) ≠ ['0'] } }

/-- Find-or-create of the window with the given index inside a session's
window list, appending the pane to the first window with that index, or
pushing a fresh window at the end (the `if let Some(window) = ...` block). -/
def addPaneToWindows (widx : Nat) (wname : String) (wactive : Bool)
    (pane : TmuxPane) : List TmuxWindow → List TmuxWindow
  | [] => [{ index := widx, name := wname, active := wactive, panes := [pane] }]
  | w :: ws =>
    if w.index = widx then { w with panes := w.panes ++ [pane] } :: ws
    else w :: addPaneToWindows widx wname wactive pane ws

/-- The session created by `or_insert_with` for a fresh name, after the
line's pane has been pushed into it. -/
def newSession (d : LineData) : TmuxSession :=
  { name := d.session_name
    id := d.session_id
    attached := d.session_attached
    window_count := d.session_windows
    created := d.session_created
    windows := addPaneToWindows d.window_index d.window_name d.window_active d.pane [] }

/-- Strict lexicographic order on character lists: the `Ord` instance of
Rust `String` (byte order on UTF-8 agrees with code-point order), which is
the key order of the `BTreeMap` in `parse_sessions`. -/
def lexLT : List Char → List Char → Bool
  | _, [] => false
  | [], _ :: _ => true
  | a :: as, b :: bs =>
    if a < b then true
    else if b < a then false
    else lexLT as bs

/-- `lexLT` lifted to the session-name strings. -/
def nameLT (a b : String) : Bool := lexLT a.data b.data

/-- One `BTreeMap::entry(name).or_insert_with(..)` step followed by the
window find-or-create.  The map is represented as its entries in ascending
key (session name) order, which is also the order `into_values` yields. -/
def applyLine (d : LineData) : List TmuxSession → List TmuxSession
  | [] => [newSession d]
  | s :: rest =>
    if nameLT d.session_name s.name then newSession d :: s :: rest
    else if d.session_name = s.name then
      { s with windows :=
          addPaneToWindows d.window_index d.window_name d.window_active d.pane s.windows } :: rest
    else s :: applyLine d rest

/-- One iteration of the line loop of `parse_sessions`. -/
def processLine (m : List TmuxSession) (line : List Char) : List TmuxSession :=
  match parseLine line with
  | some d => applyLine d m
  | none => m

/-- Window order within a session: ascending by window index. -/
def winLE (a b : TmuxWindow) : Prop := a.index ≤ b.index

/-- Pane order within a window: ascending by pane index. -/
def paneLE (a b : TmuxPane) : Prop := a.index ≤ b.index

instance : DecidableRel winLE := fun a b => Nat.decLe a.index b.index

instance : DecidableRel paneLE := fun a b => Nat.decLe a.index b.index

instance : IsTotal TmuxWindow winLE := ⟨fun a b => Nat.le_total a.index b.index⟩

instance : IsTrans TmuxWindow winLE := ⟨fun _ _ _ => Nat.le_trans⟩

instance : IsTotal TmuxPane paneLE := ⟨fun a b => Nat.le_total a.index b.index⟩

instance : IsTrans TmuxPane paneLE := ⟨fun _ _ _ => Nat.le_trans⟩

/-- The sorting post-pass of `parse_sessions`: windows sorted by index
within the session, panes sorted by index within each window.  Rust's
`sort_by_key` is a stable comparison sort; insertion sort models it. -/
def sortWindow (w : TmuxWindow) : TmuxWindow :=
  { w with panes := List.insertionSort paneLE w.panes }

/-- See `sortWindow`; this applies both sorting passes to one session. -/
def sortSession (s : TmuxSession) : TmuxSession :=
  { s with windows := List.insertionSort winLE (s.windows.map sortWindow) }

/-- `parse_sessions` of src/tmux.rs: group the lines into the session map,
collect the values in key order, sort windows and panes, and return `Ok`.
There is no error path inside the function. -/
def parse_sessions (output : String) : Except String (List TmuxSession) :=
  Except.ok (((rustLines output.data).foldl processLine []).map sortSession)

/-- The hierarchy produced for an input text (the `Ok` payload). -/
def hierarchy (output : String) : List TmuxSession :=
  ((rustLines output.data).foldl processLine []).map sortSession

/-- Lookup of the session entry with a given name, i.e.
`sessions.iter().find(|s| s.name == session_name)`. -/
def findSession : List TmuxSession → String → Option TmuxSession
  | [], _ => none
  | s :: rest, n => if s.name = n then some s else findSession rest n

/-- Lookup of the first window with a given index, i.e.
`windows.iter().find(|w| w.index == window_index)`. -/
def findWindow : List TmuxWindow → Nat → Option TmuxWindow
  | [], _ => none
  | w :: ws, i => if w.index = i then some w else findWindow ws i

/-! ## The application state machine (src/app.rs) -/

/-- Application mode (enum Mode in src/app.rs). -/
inductive Mode where
  | Normal : Mode
  | CreateSession (input : String) : Mode
  | RenameSession (target : String) (input : String) : Mode
  | ConfirmKill (target : String) : Mode
  deriving Repr, DecidableEq

/-- Actions produced by key handling (enum Action in src/app.rs). -/
inductive Action where
  | Quit : Action
  | Attach (target : String) : Action
  | Refresh : Action
  | None : Action
  deriving Repr, DecidableEq

/-- Flash message; `created` is the creation instant in nanoseconds of a
monotonic clock. -/
structure FlashMessage where
  text : String
  created : Nat
  deriving Repr, DecidableEq

/-- `FlashMessage::is_expired` at the instant `now`:
`self.created.elapsed().as_secs() >= 3`, where `as_secs` truncates. -/
def FlashMessage.is_expired (f : FlashMessage) (now : Nat) : Bool :=
  3 ≤ (now - f.created) / 1000000000

/-- The key codes handled by the application (subset of crossterm
`KeyCode` reached by the embedded handlers). -/
inductive KeyCode where
  | Char (c : Char) : KeyCode
  | Enter : KeyCode
  | Esc : KeyCode
  | Backspace : KeyCode
  | Up : KeyCode
  | Down : KeyCode
  | Left : KeyCode
  | Right : KeyCode
  deriving Repr, DecidableEq

/-- A key event as seen by the modal handlers (they inspect only the code). -/
structure KeyEvent where
  code : KeyCode
  deriving Repr, DecidableEq

/-- Selection/expansion state of the tui-tree-widget `TreeState<String>`:
the selected identifier path and the set of opened identifier paths. -/
structure TreeState where
  selected : List String
  opened : List (List String)
  deriving Repr, DecidableEq

/-- `TreeState::open`: add a path to the set of opened paths. -/
def TreeState.openPath (t : TreeState) (p : List String) : TreeState :=
  if p ∈ t.opened then t else { t with opened := t.opened ++ [p] }

/-- `TreeState::select`: set the selected path. -/
def TreeState.select (t : TreeState) (p : List String) : TreeState :=
  { t with selected := p }

/-- `TreeState::select_first` on the tree built from `sessions` by
`build_tree_items` in src/ui.rs: the first visible node is the first
session's root node, so its path `[name]` becomes selected; on an empty
tree the selection becomes empty. -/
def TreeState.selectFirstNode (t : TreeState) (sessions : List TmuxSession) : TreeState :=
  match sessions.head? with
  | some s => { t with selected := [s.name] }
  | none => { t with selected := [] }

/-- The application model (struct App in src/app.rs), restricted to the
fields the key handlers and the clock read or write; `last_refresh` is the
instant of the last refresh in nanoseconds. -/
structure App where
  sessions : List TmuxSession
  tree_state : TreeState
  mode : Mode
  flash : Option FlashMessage
  last_refresh : Nat
  deriving Repr, DecidableEq

/-- External tmux mutations the handlers can invoke. -/
inductive TmuxCall where
  | createSession (name : String) : TmuxCall
  | renameSession (old : String) (new : String) : TmuxCall
  | killSession (name : String) : TmuxCall
  deriving Repr, DecidableEq

/-- Result of handling one key: the updated application state, the outward
action, and the external calls performed (in order). -/
structure KeyResult where
  app : App
  action : Action
  calls : List TmuxCall
  deriving Repr, DecidableEq

/-- Outcome oracle for external tmux calls. -/
def CallOracle := TmuxCall → Except String Unit

/-- A single-quote character, for building the flash texts. -/
def squote : String := String.singleton (Char.ofNat 39)

/-- Rust `str::trim` on a string. -/
def rustTrim (s : String) : String := ⟨trimChars s.data⟩

/-- `App::refresh`: record the refresh instant, then replace the hierarchy
on success or set an error flash on failure; `fetch` is the result of the
external `fetch_sessions` call. -/
def App.refresh (fetch : Except String (List TmuxSession)) (now : Nat) (a : App) : App :=
  let a := { a with last_refresh := now }
  match fetch with
  | Except.ok sessions => { a with sessions := sessions }
  | Except.error e =>
      { a with flash := some { text := "Refresh failed: " ++ e, created := now } }

/-- `App::tick`: clear an expired flash message, then auto-refresh when at
least two seconds (`AUTO_REFRESH_INTERVAL`, compared at full `Duration`
precision) have passed since the last refresh. -/
def App.tick (fetch : Except String (List TmuxSession)) (now : Nat) (a : App) : App :=
  let a :=
    match a.flash with
    | some flash => if flash.is_expired now then { a with flash := none } else a
    | none => a
  if 2000000000 ≤ now - a.last_refresh then a.refresh fetch now else a

/-- `App::jump_to_session`: resolve the session at position
`letter - 'A'`, open it, and select its first window if any, else select
the session node itself; no-op when the position is out of range. -/
def App.jump_to_session (a : App) (letter : Char) : App :=
  let idx := letter.toNat - 'A'.toNat
  match a.sessions.get? idx with
  | some session =>
    let ts := a.tree_state.openPath [session.name]
    let ts :=
      match session.windows.head? with
      | some window => ts.select [session.name, toString window.index]
      | none => ts.select [session.name]
    { a with tree_state := ts }
  | none => a

/-- The startup focus block of `App::new`: if there is a first session,
open it and select its first window, else fall back to `select_first`. -/
def App.initFocus (a : App) : App :=
  match a.sessions.head? with
  | some session =>
    match session.windows.head? with
    | some window =>
      let ts := a.tree_state.openPath [session.name]
      { a with tree_state := ts.select [session.name, toString window.index] }
    | none =>
      let ts := a.tree_state.openPath [session.name]
      { a with tree_state := ts.selectFirstNode a.sessions }
  | none => a

/-- `App::jump_to_window`: select window number `digit` (1-based positional
rank in the sorted window list) of the session named by the first segment
of the current selection; no-op when nothing is selected, the session name
does not resolve, or there is no window at that rank. -/
def App.jump_to_window (a : App) (digit : Char) : App :=
  let win_display_idx := digit.toNat - '0'.toNat
  match a.tree_state.selected with
  | [] => a
  | session_name :: _ =>
    match findSession a.sessions session_name with
    | none => a
    | some session =>
      match session.windows.get? (win_display_idx - 1) with
      | some window =>
        let ts := a.tree_state.openPath [session_name]
        { a with tree_state := ts.select [session_name, toString window.index] }
      | none => a

/-- `App::handle_create_session_key`. -/
def App.handle_create_session_key (oracle : CallOracle) (now : Nat)
    (a : App) (key : KeyEvent) : KeyResult :=
  match a.mode with
  | Mode.CreateSession input =>
    match key.code with
    | KeyCode.Esc => ⟨{ a with mode := Mode.Normal }, Action.None, []⟩
    | KeyCode.Enter =>
      let name := rustTrim input
      if name = "" then ⟨{ a with mode := Mode.Normal }, Action.None, []⟩
      else
        match oracle (TmuxCall.createSession name) with
        | Except.ok _ =>
          ⟨{ a with
              flash := some { text := "Created session " ++ squote ++ name ++ squote,
                              created := now },
              mode := Mode.Normal },
            Action.Refresh, [TmuxCall.createSession name]⟩
        | Except.error e =>
          ⟨{ a with
              flash := some { text := "Error: " ++ e, created := now },
              mode := Mode.Normal },
            Action.None, [TmuxCall.createSession name]⟩
    | KeyCode.Backspace =>
      ⟨{ a with mode := Mode.CreateSession ⟨input.data.dropLast⟩ }, Action.None, []⟩
    | KeyCode.Char c =>
      ⟨{ a with mode := Mode.CreateSession (input.push c) }, Action.None, []⟩
    | _ => ⟨a, Action.None, []⟩
  | _ => ⟨a, Action.None, []⟩

/-- `App::handle_rename_session_key`. -/
def App.handle_rename_session_key (oracle : CallOracle) (now : Nat)
    (a : App) (key : KeyEvent) : KeyResult :=
  match a.mode with
  | Mode.RenameSession target input =>
    match key.code with
    | KeyCode.Esc => ⟨{ a with mode := Mode.Normal }, Action.None, []⟩
    | KeyCode.Enter =>
      let new_name := rustTrim input
      let old_name := target
      if new_name = "" ∨ new_name = old_name then
        ⟨{ a with mode := Mode.Normal }, Action.None, []⟩
      else
        match oracle (TmuxCall.renameSession old_name new_name) with
        | Except.ok _ =>
          ⟨{ a with
              flash := some { text := "Renamed " ++ squote ++ old_name ++ squote ++
                                " → " ++ squote ++ new_name ++ squote,
                              created := now },
              mode := Mode.Normal },
            Action.Refresh, [TmuxCall.renameSession old_name new_name]⟩
        | Except.error e =>
          ⟨{ a with
              flash := some { text := "Error: " ++ e, created := now },
              mode := Mode.Normal },
            Action.None, [TmuxCall.renameSession old_name new_name]⟩
    | KeyCode.Backspace =>
      ⟨{ a with mode := Mode.RenameSession target ⟨input.data.dropLast⟩ }, Action.None, []⟩
    | KeyCode.Char c =>
      ⟨{ a with mode := Mode.RenameSession target (input.push c) }, Action.None, []⟩
    | _ => ⟨a, Action.None, []⟩
  | _ => ⟨a, Action.None, []⟩

/-- `App::handle_confirm_kill_key`. -/
def App.handle_confirm_kill_key (oracle : CallOracle) (now : Nat)
    (a : App) (key : KeyEvent) : KeyResult :=
  match a.mode with
  | Mode.ConfirmKill target =>
    match key.code with
    | KeyCode.Char c =>
      if c = 'y' ∨ c = 'Y' then
        match oracle (TmuxCall.killSession target) with
        | Except.ok _ =>
          ⟨{ a with
              flash := some { text := "Killed session " ++ squote ++ target ++ squote,
                              created := now },
              mode := Mode.Normal },
            Action.Refresh, [TmuxCall.killSession target]⟩
        | Except.error e =>
          ⟨{ a with
              flash := some { text := "Error: " ++ e, created := now },
              mode := Mode.Normal },
            Action.None, [TmuxCall.killSession target]⟩
      else ⟨{ a with mode := Mode.Normal }, Action.None, []⟩
    | _ => ⟨{ a with mode := Mode.Normal }, Action.None, []⟩
  | _ => ⟨a, Action.None, []⟩

/-- `App::action_attach`: build the attach target from the current tree
selection. -/
def App.action_attach (a : App) : Action :=
  match a.tree_state.selected with
  | [] => Action.None
  | [x] => Action.Attach x
  | x :: y :: _ => Action.Attach (x ++ ":" ++ y)

/-! ## Specification-side definitions and auxiliary notions -/

/-- The session ordering asserted by the specification (not by the code):
the session names in insertion order of first appearance in the parsed
stream, deduplicated by name. -/
def specFirstAppearanceNames (output : String) : List String :=
  (rustLines output.data).foldl
    (fun acc line =>
      match parseLine line with
      | some d => if d.session_name ∈ acc then acc else acc ++ [d.session_name]
      | none => acc) []

/-- Strict order on sessions by name, the `BTreeMap` key order. -/
def sessionLT (s t : TmuxSession) : Prop := nameLT s.name t.name = true

/-- Total number of panes in a window list. -/
def panesCount (ws : List TmuxWindow) : Nat :=
  (ws.map (fun w => w.panes.length)).sum

/-- Total number of panes in a hierarchy: one per parsed input line. -/
def totalPanes (l : List TmuxSession) : Nat :=
  (l.map (fun s => panesCount s.windows)).sum

/-- An input text on which the hierarchy order (ascending by name) differs
from the order of first appearance (`b` before `a`). -/
def cex1 : String :=
  "b|$1|0|1|0|0|w|1|0|c|p|1\na|$2|0|1|0|0|w|1|0|c|p|1"

/-! ## Order lemmas for the map key order -/

theorem lexLT_irrefl (a : List Char) : lexLT a a = false := by
  induction a with
  | nil => rfl
  | cons x xs ih => simp [lexLT, lt_irrefl, ih]

theorem lexLT_trans {a : List Char} : ∀ {b c : List Char},
    lexLT a b = true → lexLT b c = true → lexLT a c = true := by
  induction a with
  | nil =>
    intro b c h1 h2
    cases b with
    | nil => simp [lexLT] at h1
    | cons y ys =>
      cases c with
      | nil => simp [lexLT] at h2
      | cons z zs => simp [lexLT]
  | cons x xs ih =>
    intro b c h1 h2
    cases b with
    | nil => simp [lexLT] at h1
    | cons y ys =>
      cases c with
      | nil => simp [lexLT] at h2
      | cons z zs =>
        simp only [lexLT] at h1 h2 ⊢
        by_cases hxy : x < y
        · by_cases hyz : y < z
          · simp [lt_trans hxy hyz]
          · by_cases hzy : z < y
            · simp [hyz, hzy] at h2
            · have hyz' : y = z := le_antisymm (le_of_not_lt hzy) (le_of_not_lt hyz)
              subst hyz'
              simp [hxy]
        · by_cases hyx : y < x
          · simp [hxy, hyx] at h1
          · have hxy' : x = y := le_antisymm (le_of_not_lt hyx) (le_of_not_lt hxy)
            subst hxy'
            simp [lt_irrefl] at h1
            by_cases hyz : x < z
            · simp [hyz]
            · by_cases hzy : z < x
              · simp [hyz, hzy] at h2
              · have hyz' : x = z := le_antisymm (le_of_not_lt hzy) (le_of_not_lt hyz)
                subst hyz'
                simp [lt_irrefl] at h2 ⊢
                exact ih h1 h2

theorem lexLT_of_ne {a : List Char} : ∀ {b : List Char},
    lexLT a b = false → a ≠ b → lexLT b a = true := by
  induction a with
  | nil =>
    intro b h hne
    cases b with
    | nil => exact absurd rfl hne
    | cons y ys => simp [lexLT] at h
  | cons x xs ih =>
    intro b h hne
    cases b with
    | nil => simp [lexLT]
    | cons y ys =>
      simp only [lexLT] at h ⊢
      by_cases hxy : x < y
      · simp [hxy] at h
      · by_cases hyx : y < x
        · simp [hyx]
        · have hxy' : x = y := le_antisymm (le_of_not_lt hyx) (le_of_not_lt hxy)
          subst hxy'
          simp [lt_irrefl] at h ⊢
          exact ih h (by simpa using hne)

theorem nameLT_trans {a b c : String} (h1 : nameLT a b = true) (h2 : nameLT b c = true) :
    nameLT a c = true :=
  lexLT_trans h1 h2

theorem nameLT_of_ne {a b : String} (h : nameLT a b = false) (hne : a ≠ b) :
    nameLT b a = true := by
  apply lexLT_of_ne h
  intro hd
  apply hne
  cases a with
  | mk da =>
    cases b with
    | mk db =>
      have hdd : da = db := hd
      rw [hdd]

/-! ## Invariants of the session map -/

theorem applyLine_name_mem {d : LineData} {t : TmuxSession} :
    ∀ {m : List TmuxSession}, t ∈ applyLine d m →
      t.name = d.session_name ∨ t.name ∈ m.map TmuxSession.name := by
  intro m
  induction m with
  | nil =>
    intro ht
    simp only [applyLine, List.mem_singleton] at ht
    left
    rw [ht]
    rfl
  | cons s rest ih =>
    intro ht
    simp only [applyLine] at ht
    split at ht
    · rcases List.mem_cons.1 ht with rfl | ht'
      · left; rfl
      · right
        simpa using List.mem_map_of_mem TmuxSession.name ht'
    · split at ht
      · rcases List.mem_cons.1 ht with rfl | ht'
        · right; simp
        · right
          simp [List.mem_map_of_mem TmuxSession.name ht']
      · rcases List.mem_cons.1 ht with rfl | ht'
        · right; simp
        · rcases ih ht' with h | h
          · left; exact h
          · right; simp only [List.map_cons, List.mem_cons]; right; exact h

theorem applyLine_pairwise {d : LineData} :
    ∀ {m : List TmuxSession}, m.Pairwise sessionLT → (applyLine d m).Pairwise sessionLT := by
  intro m
  induction m with
  | nil =>
    intro _
    simp [applyLine]
  | cons s rest ih =>
    intro hp
    rw [List.pairwise_cons] at hp
    obtain ⟨hs, hrest⟩ := hp
    simp only [applyLine]
    split
    · rename_i hlt
      refine List.Pairwise.cons ?_ (List.Pairwise.cons hs hrest)
      intro t ht
      rcases List.mem_cons.1 ht with rfl | htr
      · exact hlt
      · exact nameLT_trans hlt (hs t htr)
    · split
      · rename_i hnlt heq
        refine List.Pairwise.cons ?_ hrest
        intro t ht
        exact hs t ht
      · rename_i hnlt hne
        refine List.Pairwise.cons ?_ (ih hrest)
        intro t ht
        rcases applyLine_name_mem ht with hname | hname
        · have hgt : nameLT s.name d.session_name = true :=
            nameLT_of_ne (by simpa using hnlt) hne
          unfold sessionLT
          rw [hname]
          exact hgt
        · rcases List.mem_map.1 hname with ⟨u, hu, huname⟩
          have := hs u hu
          unfold sessionLT at this ⊢
          rw [← huname]
          exact this

theorem foldl_processLine_pairwise (lines : List (List Char)) :
    ∀ {m : List TmuxSession}, m.Pairwise sessionLT →
      (lines.foldl processLine m).Pairwise sessionLT := by
  induction lines with
  | nil => intro m h; exact h
  | cons line rest ih =>
    intro m h
    apply ih
    unfold processLine
    split
    · exact applyLine_pairwise h
    · exact h

theorem hierarchy_pairwise (output : String) : (hierarchy output).Pairwise sessionLT := by
  unfold hierarchy
  exact List.Pairwise.map sortSession (fun a b hab => hab)
    (foldl_processLine_pairwise (rustLines output.data) List.Pairwise.nil)

/-! ## Claims -/

/-- C1 (counterexample): on `cex1` the session named `b` appears first in
the input stream, yet the parsed Hierarchy lists `a` before `b`, so the
Hierarchy order is not the insertion order of first appearance. -/
theorem claim1_counterexample :
    (hierarchy cex1).map TmuxSession.name = ["a", "b"] ∧
    specFirstAppearanceNames cex1 = ["b", "a"] ∧
    (hierarchy cex1).map TmuxSession.name ≠ specFirstAppearanceNames cex1 := by
  refine ⟨by decide, by decide, by decide⟩

/-- C1 (amended): for every parsed input text, the resulting Hierarchy is
an ordered sequence of Session, ordered strictly ascending by session name
(the BTreeMap key order), which also dedupes sessions by name; it is not
the first-appearance order. -/
theorem claim1_order (output : String) :
    ((hierarchy output).map TmuxSession.name).Pairwise (fun a b => nameLT a b = true) := by
  rw [List.pairwise_map]
  exact hierarchy_pairwise output

/-- C2: parsing never fails: `parse_sessions` always returns `Ok`, lines
with fewer than 12 fields are skipped and contribute nothing, a numeric
field that fails to parse defaults to 0, and empty input yields an empty
Hierarchy. -/
theorem claim2_parse_total :
    (∀ output : String, ∃ l, parse_sessions output = Except.ok l) ∧
    (∀ (m : List TmuxSession) (line : List Char),
      wellFormedLine line = false → processLine m line = m) ∧
    (∀ (width : Nat) (cs : List Char),
      rustParseUnsigned width cs = none → parseOr0 width cs = 0) ∧
    parse_sessions "" = Except.ok [] := by
  refine ⟨fun output => ⟨_, rfl⟩, ?_, ?_, rfl⟩
  · intro m line h
    have hlt : (splitOnChar '|' line).length < 12 := by
      simp only [wellFormedLine, decide_eq_false_iff_not, not_le] at h
      exact h
    unfold processLine parseLine
    simp [hlt]
  · intro w cs h
    unfold parseOr0
    rw [h]
    rfl

/-- Witness for C2: a malformed two-field line leaves the map unchanged,
and an unparsable numeric field yields 0. -/
theorem claim2_parse_total_witness :
    processLine [] ("a|b".data) = [] ∧ parseOr0 32 ("12x".data) = 0 :=
  ⟨claim2_parse_total.2.1 [] ("a|b".data) (by decide),
   claim2_parse_total.2.2.1 32 ("12x".data) (by decide)⟩

/-- C4: in every session of a parsed Hierarchy the windows are sorted
ascending by window index, and in every window the panes are sorted
ascending by pane index. -/
theorem claim4_sorted (output : String) (s : TmuxSession) (hs : s ∈ hierarchy output) :
    s.windows.Pairwise winLE ∧ ∀ w ∈ s.windows, w.panes.Pairwise paneLE := by
  unfold hierarchy at hs
  rcases List.mem_map.1 hs with ⟨s₀, _, rfl⟩
  constructor
  · exact List.sorted_insertionSort winLE _
  · intro w hw
    simp only [sortSession] at hw
    have hw' : w ∈ s₀.windows.map sortWindow :=
      (List.perm_insertionSort winLE (s₀.windows.map sortWindow)).subset hw
    rcases List.mem_map.1 hw' with ⟨w₀, _, rfl⟩
    exact List.sorted_insertionSort paneLE _

/-! ## Grouping lemmas for C3 -/

theorem nameLT_ne {a b : String} (h : nameLT a b = true) : a ≠ b := by
  intro heq
  subst heq
  simp [nameLT, lexLT_irrefl] at h

theorem findSession_mem : ∀ {m : List TmuxSession} {n : String} {s : TmuxSession},
    findSession m n = some s → s ∈ m := by
  intro m
  induction m with
  | nil => intro n s h; simp [findSession] at h
  | cons t rest ih =>
    intro n s h
    simp only [findSession] at h
    split at h
    · cases h; exact List.mem_cons_self t rest
    · exact List.mem_cons_of_mem t (ih h)

theorem findSession_name : ∀ {m : List TmuxSession} {n : String} {s : TmuxSession},
    findSession m n = some s → s.name = n := by
  intro m
  induction m with
  | nil => intro n s h; simp [findSession] at h
  | cons t rest ih =>
    intro n s h
    simp only [findSession] at h
    split at h
    · rename_i ht; cases h; exact ht
    · exact ih h

theorem findSession_applyLine_found {d : LineData} :
    ∀ {m : List TmuxSession} {s : TmuxSession}, m.Pairwise sessionLT →
      findSession m d.session_name = some s →
      findSession (applyLine d m) d.session_name =
        some { s with windows :=
          addPaneToWindows d.window_index d.window_name d.window_active d.pane s.windows } := by
  intro m
  induction m with
  | nil => intro s _ hf; simp [findSession] at hf
  | cons t rest ih =>
    intro s hp hf
    rw [List.pairwise_cons] at hp
    obtain ⟨hall, hrest⟩ := hp
    simp only [applyLine]
    split
    · rename_i hlt
      exfalso
      simp only [findSession] at hf
      split at hf
      · rename_i hteq
        rw [← hteq] at hlt
        simp [nameLT, lexLT_irrefl] at hlt
      · have hsmem := findSession_mem hf
        have hsname := findSession_name hf
        have hts := hall s hsmem
        unfold sessionLT at hts
        rw [hsname] at hts
        have := nameLT_trans hlt hts
        simp [nameLT, lexLT_irrefl] at this
    · split
      · rename_i hnlt heq
        simp only [findSession] at hf ⊢
        split at hf
        · cases hf
          split
          · rfl
          · rename_i hcond
            exact absurd heq.symm hcond
        · rename_i hcond
          exact absurd heq.symm hcond
      · rename_i hnlt hne
        simp only [findSession] at hf ⊢
        split at hf
        · rename_i hteq
          exact absurd hteq.symm hne
        · split
          · rename_i hteq
            exact absurd hteq.symm hne
          · exact ih hrest hf

theorem findSession_applyLine_other {d : LineData} :
    ∀ (m : List TmuxSession) {n : String}, n ≠ d.session_name →
      findSession (applyLine d m) n = findSession m n := by
  intro m
  induction m with
  | nil =>
    intro n hn
    simp only [applyLine, findSession]
    split
    · rename_i h
      exact absurd h.symm hn
    · rfl
  | cons t rest ih =>
    intro n hn
    simp only [applyLine]
    split
    · simp only [findSession]
      split
      · rename_i h
        exact absurd h.symm hn
      · rfl
    · split
      · rename_i hnlt heq
        simp only [findSession]
        split
        · rename_i h
          exact absurd (heq.trans h).symm hn
        · rfl
      · simp only [findSession]
        split
        · rfl
        · exact ih hn

theorem findWindow_addPane_found {i : Nat} (nm : String) (act : Bool) (p : TmuxPane) :
    ∀ {ws : List TmuxWindow} {w : TmuxWindow}, findWindow ws i = some w →
      findWindow (addPaneToWindows i nm act p ws) i =
        some { w with panes := w.panes ++ [p] } := by
  intro ws
  induction ws with
  | nil => intro w h; simp [findWindow] at h
  | cons u us ih =>
    intro w h
    simp only [findWindow] at h
    simp only [addPaneToWindows]
    split
    · rename_i hui
      rw [if_pos hui] at h
      cases h
      simp only [findWindow]
      split
      · rfl
      · rename_i hcond
        exact absurd hui hcond
    · rename_i hui
      rw [if_neg hui] at h
      simp only [findWindow]
      split
      · rename_i hcond
        exact absurd hcond hui
      · exact ih h

theorem findWindow_addPane_none {i : Nat} (nm : String) (act : Bool) (p : TmuxPane) :
    ∀ {ws : List TmuxWindow}, findWindow ws i = none →
      addPaneToWindows i nm act p ws = ws ++ [TmuxWindow.mk i nm act [p]] := by
  intro ws
  induction ws with
  | nil => intro _; rfl
  | cons u us ih =>
    intro h
    simp only [findWindow] at h
    split at h
    · cases h
    · simp only [addPaneToWindows]
      rw [if_neg (by assumption)]
      rw [ih h]
      rfl

theorem panesCount_cons (w : TmuxWindow) (ws : List TmuxWindow) :
    panesCount (w :: ws) = w.panes.length + panesCount ws := by
  simp [panesCount]

theorem panesCount_addPane (i : Nat) (nm : String) (act : Bool) (p : TmuxPane) :
    ∀ ws, panesCount (addPaneToWindows i nm act p ws) = panesCount ws + 1 := by
  intro ws
  induction ws with
  | nil => simp [addPaneToWindows, panesCount]
  | cons u us ih =>
    simp only [addPaneToWindows]
    split
    · simp only [panesCount_cons]
      simp
      omega
    · simp only [panesCount_cons, ih]
      omega

theorem totalPanes_cons (s : TmuxSession) (l : List TmuxSession) :
    totalPanes (s :: l) = panesCount s.windows + totalPanes l := by
  simp [totalPanes]

theorem totalPanes_applyLine (d : LineData) :
    ∀ m, totalPanes (applyLine d m) = totalPanes m + 1 := by
  intro m
  induction m with
  | nil =>
    show totalPanes [newSession d] = totalPanes [] + 1
    rw [totalPanes_cons]
    show panesCount (addPaneToWindows d.window_index d.window_name d.window_active d.pane [])
        + totalPanes [] = totalPanes [] + 1
    rw [panesCount_addPane]
    rfl
  | cons s rest ih =>
    simp only [applyLine]
    split
    · rw [totalPanes_cons, totalPanes_cons]
      have h1 : panesCount (newSession d).windows = 1 := by
        show panesCount (addPaneToWindows d.window_index d.window_name d.window_active
          d.pane []) = 1
        rw [panesCount_addPane]
        rfl
      rw [h1]
      omega
    · split
      · rw [totalPanes_cons, totalPanes_cons]
        show panesCount (addPaneToWindows d.window_index d.window_name d.window_active
            d.pane s.windows) + totalPanes rest = panesCount s.windows + totalPanes rest + 1
        rw [panesCount_addPane]
        omega
      · rw [totalPanes_cons, totalPanes_cons, ih]
        omega

theorem parseLine_isSome (line : List Char) :
    (parseLine line).isSome = wellFormedLine line := by
  simp only [parseLine, wellFormedLine]
  split
  · rename_i h
    simp
    omega
  · rename_i h
    simp
    omega

theorem totalPanes_processLine (m : List TmuxSession) (line : List Char) :
    totalPanes (processLine m line) =
      totalPanes m + (if wellFormedLine line then 1 else 0) := by
  unfold processLine
  cases hp : parseLine line with
  | some d =>
    have hw : wellFormedLine line = true := by
      rw [← parseLine_isSome, hp]
      rfl
    rw [hw]
    simp [totalPanes_applyLine]
  | none =>
    have hw : wellFormedLine line = false := by
      rw [← parseLine_isSome, hp]
      rfl
    rw [hw]
    simp

theorem totalPanes_foldl (lines : List (List Char)) :
    ∀ m, totalPanes (lines.foldl processLine m) =
      totalPanes m + lines.countP wellFormedLine := by
  induction lines with
  | nil => intro m; simp
  | cons line rest ih =>
    intro m
    simp only [List.foldl_cons]
    rw [ih, totalPanes_processLine, List.countP_cons]
    by_cases h : wellFormedLine line
    · simp [h]
      omega
    · simp [h]

theorem panesCount_sortSession (s : TmuxSession) :
    panesCount (sortSession s).windows = panesCount s.windows := by
  simp only [sortSession, panesCount]
  have hperm := (List.perm_insertionSort winLE (s.windows.map sortWindow)).map
    (fun w => w.panes.length)
  rw [hperm.sum_eq, List.map_map]
  congr 1
  apply List.map_congr_left
  intro w _
  show (sortWindow w).panes.length = w.panes.length
  simp only [sortWindow]
  exact (List.perm_insertionSort paneLE w.panes).length_eq

theorem totalPanes_map_sortSession (l : List TmuxSession) :
    totalPanes (l.map sortSession) = totalPanes l := by
  induction l with
  | nil => rfl
  | cons s rest ih =>
    simp only [List.map_cons, totalPanes_cons, ih, panesCount_sortSession]

theorem totalPanes_hierarchy (output : String) :
    totalPanes (hierarchy output) = (rustLines output.data).countP wellFormedLine := by
  unfold hierarchy
  rw [totalPanes_map_sortSession]
  have h := totalPanes_foldl (rustLines output.data) []
  simpa [totalPanes] using h

theorem hierarchy_names_nodup (output : String) :
    ((hierarchy output).map TmuxSession.name).Nodup := by
  have h : ((hierarchy output).map TmuxSession.name).Pairwise
      (fun a b => nameLT a b = true) := by
    rw [List.pairwise_map]
    exact hierarchy_pairwise output
  exact h.imp (fun hab => nameLT_ne hab)

/-- C3: sessions are grouped by name with no duplicate Session entries:
a later record for an existing session amends only its window list (its
id, attached flag, window count and creation time stay as the first
occurrence set them), sessions with other names are untouched, a record
for an existing (session, window index) pair appends exactly one pane to
that window while keeping the window's first-set name and active flag,
a record for a fresh window index appends a fresh one-pane window at the
end, and the parsed Hierarchy holds exactly one pane per well-formed
input line. -/
theorem claim3_grouping (output : String) (d : LineData) (m : List TmuxSession)
    (s : TmuxSession) (ws : List TmuxWindow) (i : Nat) (nm : String) (act : Bool)
    (p : TmuxPane) (w : TmuxWindow) :
    ((hierarchy output).map TmuxSession.name).Nodup ∧
    (m.Pairwise sessionLT → findSession m d.session_name = some s →
      findSession (applyLine d m) d.session_name =
        some { s with windows :=
          addPaneToWindows d.window_index d.window_name d.window_active d.pane s.windows }) ∧
    (∀ n : String, n ≠ d.session_name →
      findSession (applyLine d m) n = findSession m n) ∧
    (findWindow ws i = some w →
      findWindow (addPaneToWindows i nm act p ws) i =
        some { w with panes := w.panes ++ [p] }) ∧
    (findWindow ws i = none →
      addPaneToWindows i nm act p ws = ws ++ [TmuxWindow.mk i nm act [p]]) ∧
    totalPanes (hierarchy output) = (rustLines output.data).countP wellFormedLine :=
  ⟨hierarchy_names_nodup output,
   fun hp hf => findSession_applyLine_found hp hf,
   fun _ hn => findSession_applyLine_other m hn,
   fun hf => findWindow_addPane_found nm act p hf,
   fun hf => findWindow_addPane_none nm act p hf,
   totalPanes_hierarchy output⟩

/-- Witness for C3 at concrete inputs: a repeated session name amends the
existing entry, an unrelated name is untouched, a repeated window index
appends the pane, and a fresh window index appends a window. -/
theorem claim3_grouping_witness :
    findSession
        (applyLine
          (LineData.mk "s" "i2" false 9 9 3 "w2" false (TmuxPane.mk 4 "c" "p" true))
          [TmuxSession.mk "s" "i1" true 1 2 []])
        "s" =
      some (TmuxSession.mk "s" "i1" true 1 2 [TmuxWindow.mk 3 "w2" false
        [TmuxPane.mk 4 "c" "p" true]]) ∧
    findSession
        (applyLine
          (LineData.mk "s" "i2" false 9 9 3 "w2" false (TmuxPane.mk 4 "c" "p" true))
          [TmuxSession.mk "s" "i1" true 1 2 []])
        "t" =
      findSession [TmuxSession.mk "s" "i1" true 1 2 []] "t" ∧
    findWindow
        (addPaneToWindows 3 "nm" false (TmuxPane.mk 7 "c2" "p2" false)
          [TmuxWindow.mk 3 "w1" true [TmuxPane.mk 4 "c" "p" true]])
        3 =
      some (TmuxWindow.mk 3 "w1" true
        [TmuxPane.mk 4 "c" "p" true, TmuxPane.mk 7 "c2" "p2" false]) ∧
    addPaneToWindows 5 "nm" false (TmuxPane.mk 7 "c2" "p2" false)
        [TmuxWindow.mk 3 "w1" true [TmuxPane.mk 4 "c" "p" true]] =
      [TmuxWindow.mk 3 "w1" true [TmuxPane.mk 4 "c" "p" true],
       TmuxWindow.mk 5 "nm" false [TmuxPane.mk 7 "c2" "p2" false]] :=
  ⟨(claim3_grouping "" (LineData.mk "s" "i2" false 9 9 3 "w2" false
      (TmuxPane.mk 4 "c" "p" true)) [TmuxSession.mk "s" "i1" true 1 2 []]
      (TmuxSession.mk "s" "i1" true 1 2 []) [] 0 "" false
      (TmuxPane.mk 0 "" "" false) (TmuxWindow.mk 0 "" false [])).2.1
      (by simp) (by decide),
   (claim3_grouping "" (LineData.mk "s" "i2" false 9 9 3 "w2" false
      (TmuxPane.mk 4 "c" "p" true)) [TmuxSession.mk "s" "i1" true 1 2 []]
      (TmuxSession.mk "s" "i1" true 1 2 []) [] 0 "" false
      (TmuxPane.mk 0 "" "" false) (TmuxWindow.mk 0 "" false [])).2.2.1
      "t" (by decide),
   (claim3_grouping "" (LineData.mk "s" "i2" false 9 9 3 "w2" false
      (TmuxPane.mk 4 "c" "p" true)) []
      (TmuxSession.mk "s" "i1" true 1 2 [])
      [TmuxWindow.mk 3 "w1" true [TmuxPane.mk 4 "c" "p" true]] 3 "nm" false
      (TmuxPane.mk 7 "c2" "p2" false)
      (TmuxWindow.mk 3 "w1" true [TmuxPane.mk 4 "c" "p" true])).2.2.2.1
      (by decide),
   (claim3_grouping "" (LineData.mk "s" "i2" false 9 9 3 "w2" false
      (TmuxPane.mk 4 "c" "p" true)) []
      (TmuxSession.mk "s" "i1" true 1 2 [])
      [TmuxWindow.mk 3 "w1" true [TmuxPane.mk 4 "c" "p" true]] 5 "nm" false
      (TmuxPane.mk 7 "c2" "p2" false)
      (TmuxWindow.mk 3 "w1" true [TmuxPane.mk 4 "c" "p" true])).2.2.2.2.1
      (by decide)⟩

/-- C5: in Normal mode a digit key `c` (between `'1'` and `'9'`, code
points 49 to 57) resolves the session named by the selection's first
segment and selects that session's d-th window by 1-based positional rank
(`windows.get(d - 1)`), opening the session; it is a no-op when nothing is
selected, when the session name does not resolve, or when the session has
fewer than d windows. -/
theorem claim5_jump_window (a : App) (c : Char) (h1 : 49 ≤ c.toNat) (h2 : c.toNat ≤ 57) :
    (a.tree_state.selected = [] → a.jump_to_window c = a) ∧
    (∀ name rest, a.tree_state.selected = name :: rest →
      findSession a.sessions name = none → a.jump_to_window c = a) ∧
    (∀ name rest s, a.tree_state.selected = name :: rest →
      findSession a.sessions name = some s →
      s.windows.length < c.toNat - 48 → a.jump_to_window c = a) ∧
    (∀ name rest s w, a.tree_state.selected = name :: rest →
      findSession a.sessions name = some s →
      s.windows.get? (c.toNat - 48 - 1) = some w →
      a.jump_to_window c =
        { a with tree_state :=
            (a.tree_state.openPath [name]).select [name, toString w.index] }) := by
  refine ⟨?_, ?_, ?_, ?_⟩
  · intro h
    simp [App.jump_to_window, h]
  · intro name rest hsel hfind
    simp [App.jump_to_window, hsel, hfind]
  · intro name rest s hsel hfind hlen
    have hget : s.windows[c.toNat - 48 - 1]? = none := by
      rw [List.getElem?_eq_none_iff]
      omega
    simp [App.jump_to_window, hsel, hfind, hget]
  · intro name rest s w hsel hfind hget
    rw [List.get?_eq_getElem?] at hget
    simp [App.jump_to_window, hsel, hfind, hget]

/-- Witness for C5: with windows of indices 3 and 7 the digit 2 selects
the window with index 7 (positional rank, not raw index). -/
theorem claim5_jump_window_witness :
    (App.mk [TmuxSession.mk "s" "i" true 2 0
        [TmuxWindow.mk 3 "w1" true [], TmuxWindow.mk 7 "w2" false []]]
      (TreeState.mk ["s"] []) Mode.Normal none 0).jump_to_window '2' =
      { App.mk [TmuxSession.mk "s" "i" true 2 0
          [TmuxWindow.mk 3 "w1" true [], TmuxWindow.mk 7 "w2" false []]]
        (TreeState.mk ["s"] []) Mode.Normal none 0 with
        tree_state := ((TreeState.mk ["s"] []).openPath ["s"]).select ["s", "7"] } :=
  (claim5_jump_window _ '2' (by decide) (by decide)).2.2.2 "s" []
    (TmuxSession.mk "s" "i" true 2 0
      [TmuxWindow.mk 3 "w1" true [], TmuxWindow.mk 7 "w2" false []])
    (TmuxWindow.mk 7 "w2" false []) rfl rfl rfl

/-- C6: jumping to the session at position `letter - 'A'` opens it and
selects its first window if it has one, else selects the session node
itself; and the startup focus of `App::new` behaves exactly like the
letter jump at position 0. -/
theorem claim6_open_select (a : App) (letter : Char) (s : TmuxSession)
    (h : a.sessions.get? (letter.toNat - 'A'.toNat) = some s) :
    ((a.jump_to_session letter).tree_state =
      match s.windows.head? with
      | some w => (a.tree_state.openPath [s.name]).select [s.name, toString w.index]
      | none => (a.tree_state.openPath [s.name]).select [s.name]) ∧
    (∀ b : App, b.initFocus = b.jump_to_session 'A') := by
  constructor
  · simp only [App.jump_to_session, h]
  · intro b
    simp only [App.initFocus, App.jump_to_session]
    cases hb : b.sessions with
    | nil => simp
    | cons s0 tail =>
      cases hw : s0.windows.head? <;>
        simp [hw, TreeState.selectFirstNode, TreeState.select, hb]

/-- Witness for C6: jumping to letter A with one session opens it and
selects its first window. -/
theorem claim6_open_select_witness :
    ((App.mk [TmuxSession.mk "dev" "i" true 1 2 [TmuxWindow.mk 3 "w" true []]]
        (TreeState.mk [] []) Mode.Normal none 0).jump_to_session 'A').tree_state =
      ((TreeState.mk [] []).openPath ["dev"]).select ["dev", "3"] :=
  (claim6_open_select
    (App.mk [TmuxSession.mk "dev" "i" true 1 2 [TmuxWindow.mk 3 "w" true []]]
      (TreeState.mk [] []) Mode.Normal none 0) 'A'
    (TmuxSession.mk "dev" "i" true 1 2 [TmuxWindow.mk 3 "w" true []]) rfl).1

/-- C7: cancelling any modal state — Esc in CreateSession or
RenameSession, or any key other than y/Y in ConfirmKill — returns the
mode to Normal, emits Action.None, performs no external call, and leaves
the hierarchy, tree state and flash unchanged. -/
theorem claim7_modal_cancel (oracle : CallOracle) (now : Nat) (a : App) :
    (∀ inp, a.mode = Mode.CreateSession inp →
      a.handle_create_session_key oracle now (KeyEvent.mk KeyCode.Esc) =
        KeyResult.mk { a with mode := Mode.Normal } Action.None []) ∧
    (∀ tgt inp, a.mode = Mode.RenameSession tgt inp →
      a.handle_rename_session_key oracle now (KeyEvent.mk KeyCode.Esc) =
        KeyResult.mk { a with mode := Mode.Normal } Action.None []) ∧
    (∀ tgt (key : KeyEvent), a.mode = Mode.ConfirmKill tgt →
      key.code ≠ KeyCode.Char 'y' → key.code ≠ KeyCode.Char 'Y' →
      a.handle_confirm_kill_key oracle now key =
        KeyResult.mk { a with mode := Mode.Normal } Action.None []) := by
  refine ⟨?_, ?_, ?_⟩
  · intro inp h
    simp [App.handle_create_session_key, h]
  · intro tgt inp h
    simp [App.handle_rename_session_key, h]
  · intro tgt key hm hy hY
    obtain ⟨kc⟩ := key
    simp only [App.handle_confirm_kill_key, hm]
    cases kc with
    | Char c =>
      have hcy : c ≠ 'y' := by
        intro hc
        exact hy (by rw [hc])
      have hcY : c ≠ 'Y' := by
        intro hc
        exact hY (by rw [hc])
      simp [hcy, hcY]
    | Enter => rfl
    | Esc => rfl
    | Backspace => rfl
    | Up => rfl
    | Down => rfl
    | Left => rfl
    | Right => rfl

/-- Witness for C7: Esc cancels CreateSession, and `n` cancels
ConfirmKill. -/
theorem claim7_modal_cancel_witness :
    App.handle_create_session_key (fun _ => Except.ok ()) 0
        (App.mk [] (TreeState.mk [] []) (Mode.CreateSession "x") none 0)
        (KeyEvent.mk KeyCode.Esc) =
      KeyResult.mk (App.mk [] (TreeState.mk [] []) Mode.Normal none 0) Action.None [] ∧
    App.handle_confirm_kill_key (fun _ => Except.ok ()) 0
        (App.mk [] (TreeState.mk [] []) (Mode.ConfirmKill "t") none 0)
        (KeyEvent.mk (KeyCode.Char 'n')) =
      KeyResult.mk (App.mk [] (TreeState.mk [] []) Mode.Normal none 0) Action.None [] :=
  ⟨(claim7_modal_cancel (fun _ => Except.ok ()) 0
      (App.mk [] (TreeState.mk [] []) (Mode.CreateSession "x") none 0)).1 "x" rfl,
   (claim7_modal_cancel (fun _ => Except.ok ()) 0
      (App.mk [] (TreeState.mk [] []) (Mode.ConfirmKill "t") none 0)).2.2 "t"
      (KeyEvent.mk (KeyCode.Char 'n')) rfl (by decide) (by decide)⟩

/-- C8: Enter in RenameSession with trimmed input empty or equal to the
target cancels to Normal with no side effect: no rename call is made, no
flash message is set, and Action.None (not Refresh) is returned. -/
theorem claim8_rename_noop (oracle : CallOracle) (now : Nat) (a : App)
    (tgt inp : String) (hm : a.mode = Mode.RenameSession tgt inp)
    (h : rustTrim inp = "" ∨ rustTrim inp = tgt) :
    a.handle_rename_session_key oracle now (KeyEvent.mk KeyCode.Enter) =
      KeyResult.mk { a with mode := Mode.Normal } Action.None [] := by
  simp only [App.handle_rename_session_key, hm]
  rw [if_pos h]

/-- Witness for C8: renaming `dev` to `" dev "` (same name after
trimming) cancels with no call. -/
theorem claim8_rename_noop_witness :
    App.handle_rename_session_key (fun _ => Except.ok ()) 0
        (App.mk [] (TreeState.mk [] []) (Mode.RenameSession "dev" " dev ") none 0)
        (KeyEvent.mk KeyCode.Enter) =
      KeyResult.mk (App.mk [] (TreeState.mk [] []) Mode.Normal none 0) Action.None [] :=
  claim8_rename_noop (fun _ => Except.ok ()) 0
    (App.mk [] (TreeState.mk [] []) (Mode.RenameSession "dev" " dev ") none 0)
    "dev" " dev " rfl (Or.inr (by decide))

/-- C9: a housekeeping tick (with a successful auto-refresh fetch, which
never touches the flash) clears the flash message exactly when its age
has reached the 3 second threshold: younger messages survive the tick,
messages of age at least 3 seconds are removed. -/
theorem claim9_flash_expiry (a : App) (f : FlashMessage) (now : Nat)
    (sess : List TmuxSession) (hf : a.flash = some f) :
    ((a.tick (Except.ok sess) now).flash =
      if 3 * 1000000000 ≤ now - f.created then none else some f) ∧
    (f.is_expired now = true ↔ 3 * 1000000000 ≤ now - f.created) := by
  have hiff : f.is_expired now = true ↔ 3 * 1000000000 ≤ now - f.created := by
    simp only [FlashMessage.is_expired, decide_eq_true_eq]
    rw [Nat.le_div_iff_mul_le (by norm_num)]
  refine ⟨?_, hiff⟩
  simp only [App.tick, hf]
  by_cases hexp : 3 * 1000000000 ≤ now - f.created
  · rw [if_pos (hiff.mpr hexp), if_pos hexp]
    unfold App.refresh
    split <;> rfl
  · rw [if_neg (fun hc => hexp (hiff.mp hc)), if_neg hexp]
    unfold App.refresh
    split
    · exact hf
    · exact hf

/-- Witness for C9: a message created at 0 is cleared by a tick at
exactly 3 seconds. -/
theorem claim9_flash_expiry_witness :
    ((App.mk [] (TreeState.mk [] []) Mode.Normal (some (FlashMessage.mk "m" 0)) 0).tick
        (Except.ok []) 3000000000).flash =
      (if 3 * 1000000000 ≤ 3000000000 - (FlashMessage.mk "m" 0).created then none
        else some (FlashMessage.mk "m" 0)) ∧
    ((FlashMessage.mk "m" 0).is_expired 3000000000 = true ↔
      3 * 1000000000 ≤ 3000000000 - (FlashMessage.mk "m" 0).created) :=
  claim9_flash_expiry
    (App.mk [] (TreeState.mk [] []) Mode.Normal (some (FlashMessage.mk "m" 0)) 0)
    (FlashMessage.mk "m" 0) 3000000000 [] rfl

/-- C10: Enter in Normal mode builds the attach target from exactly the
first two segments of the selection (`session:window_index`), ignoring
any deeper pane segment; a one-segment selection yields the bare session
name; an empty selection emits no action. -/
theorem claim10_attach (a : App) :
    (a.tree_state.selected = [] → a.action_attach = Action.None) ∧
    (∀ x, a.tree_state.selected = [x] → a.action_attach = Action.Attach x) ∧
    (∀ x y rest, a.tree_state.selected = x :: y :: rest →
      a.action_attach = Action.Attach (x ++ ":" ++ y)) := by
  refine ⟨?_, ?_, ?_⟩
  · intro h
    simp [App.action_attach, h]
  · intro x h
    simp [App.action_attach, h]
  · intro x y rest h
    simp [App.action_attach, h]

/-- Witness for C10: a three-segment pane selection attaches to
`session:window`, dropping the pane segment. -/
theorem claim10_attach_witness :
    (App.mk [] (TreeState.mk ["s", "2", "1"] []) Mode.Normal none 0).action_attach =
      Action.Attach ("s" ++ ":" ++ "2") :=
  (claim10_attach (App.mk [] (TreeState.mk ["s", "2", "1"] []) Mode.Normal none 0)).2.2
    "s" "2" ["1"] rfl

/-- Witness for C4 at a one-line input. -/
theorem claim4_sorted_witness :
    (TmuxSession.mk "s" "i" true 1 2
        [TmuxWindow.mk 3 "w" true [TmuxPane.mk 4 "c" "p" true]]).windows.Pairwise winLE ∧
      ∀ w ∈ (TmuxSession.mk "s" "i" true 1 2
        [TmuxWindow.mk 3 "w" true [TmuxPane.mk 4 "c" "p" true]]).windows,
        w.panes.Pairwise paneLE :=
  claim4_sorted "s|i|1|1|2|3|w|1|4|c|p|1" _ (by decide)

end Tmxu
